import Mathlib

/-!
Verification development for the `tarkov-map-tracker` repository.

Shallow embedding of the four core modules:
* `screenshot_parser.py` — filename position decoder and latest-file locator;
* `log_monitor.py`      — log event tailer;
* `map_renderer.py`     — coordinate projector (`_calculate_svg_coords`);
* `tarkov_api.py`       — TTL metadata cache (`_get_cached` / `get_maps`).

Strings are modelled as `List Char`; Python floats are modelled as exact
rationals (`ℚ`) — every numeric literal appearing in the properties below is
exactly representable, so no rounding behaviour is at stake.  Filesystem
timestamps (the `timestamp` entry of the parsed dict) are queried from the OS
by the source and are outside the pure model.
-/

namespace TarkovTracker

/-! ## Filename position decoder (`screenshot_parser.py`)

The source matches the compiled pattern
`_(\d+\.?\d*),(\d+\.?\d*),(\d+\.?\d*)_(\d+)deg\.png$` (IGNORECASE) with
`re.search` against `Path(filename).name`.  Because the pattern is anchored at
the end of the string and its separators (`,`, `_`, `deg.png`) are disjoint
from the character classes of the groups (`\d`, `\.`), Python's
leftmost-match-with-backtracking semantics coincide with the deterministic
scan implemented below: at each candidate start the decomposition into the
four groups is forced, and `re.search` returns the leftmost start whose whole
remaining suffix fits the pattern.  `\d` is modelled as an ASCII digit (the
claims only involve ASCII inputs). -/

/-- Character class of the fields `\d+\.?\d*`: digits and the dot. -/
def numChar (c : Char) : Bool := c.isDigit || c = '.'

/-- Does `s` match the group pattern `\d+\.?\d*` exactly (whole list)? -/
def matchesNum (s : List Char) : Bool :=
  match s.span Char.isDigit with
  | (d1, r) =>
    !d1.isEmpty &&
      (match r with
       | [] => true
       | c :: rest => c = '.' && rest.all Char.isDigit)

/-- Split a list at the first occurrence of `ch`:
`splitOnFirst ch s = some (u, v)` iff `s = u ++ ch :: v` with `ch ∉ u`. -/
def splitOnFirst (ch : Char) : List Char → Option (List Char × List Char)
  | [] => none
  | c :: cs =>
    if c = ch then some ([], cs)
    else
      match splitOnFirst ch cs with
      | some (u, v) => some (c :: u, v)
      | none => none

/-- The literal tail `deg.png` of the pattern. -/
def degPngChars : List Char := ['d', 'e', 'g', '.', 'p', 'n', 'g']

/-- Case-insensitive equality of character lists (models `re.IGNORECASE`
on the literal part of the pattern). -/
def ciEq (s t : List Char) : Bool := s.map Char.toLower = t.map Char.toLower

/-- Try to match the whole list `s` against
`_(\d+\.?\d*),(\d+\.?\d*),(\d+\.?\d*)_(\d+)deg\.png` (case-insensitive on the
literal), returning the four captured groups. -/
def matchTail (s : List Char) :
    Option (List Char × List Char × List Char × List Char) :=
  match s with
  | c0 :: t =>
    if c0 ≠ '_' then none else
    match splitOnFirst ',' t with
    | some (a, t1) =>
      match splitOnFirst ',' t1 with
      | some (b, t2) =>
        match splitOnFirst '_' t2 with
        | some (c, t3) =>
          let d := t3.takeWhile Char.isDigit
          let e := t3.dropWhile Char.isDigit
          if matchesNum a && matchesNum b && matchesNum c && !d.isEmpty &&
              ciEq e degPngChars
          then some (a, b, c, d) else none
        | none => none
      | none => none
    | none => none
  | [] => none

/-- Leftmost end-anchored search: models `POSITION_PATTERN.search(basename)`. -/
def searchPos : List Char →
    Option (List Char × List Char × List Char × List Char)
  | [] => none
  | c :: cs =>
    match matchTail (c :: cs) with
    | some r => some r
    | none => searchPos cs

/-- Value of a digit string, models `int(...)` on a `\d+` match. -/
def natOfDigits (s : List Char) : ℕ :=
  s.foldl (fun n c => 10 * n + (c.toNat - 48)) 0

/-- Exact value of a `\d+\.?\d*` match, models `float(...)` on the captured
group (exact rational instead of IEEE rounding). -/
def ratOfNum (s : List Char) : ℚ :=
  match s.span Char.isDigit with
  | (d1, r) =>
    match r with
    | [] => (natOfDigits d1 : ℚ)
    | _ :: frac => (natOfDigits d1 : ℚ) + (natOfDigits frac : ℚ) / (10 : ℚ) ^ frac.length

/-- The position dict built by `ScreenshotParser.parse_filename` (the
filesystem-dependent `timestamp` entry is omitted from the pure model). -/
structure ParsedPosition where
  x : ℚ
  y : ℚ
  z : ℚ
  rotation : ℕ
  filename : List Char
deriving DecidableEq, Repr

/-- `Path(filename).name`: the part after the last path separator
(POSIX separator). -/
def baseName (s : List Char) : List Char :=
  (s.reverse.takeWhile (fun c => c ≠ '/')).reverse

/-- `ScreenshotParser.parse_filename`.  The `try/except` around the numeric
conversions is unreachable (a successful match guarantees the groups convert),
so the model converts directly. -/
def parseFilename (s : List Char) : Option ParsedPosition :=
  match searchPos (baseName s) with
  | some (a, b, c, d) =>
      some { x := ratOfNum a, y := ratOfNum b, z := ratOfNum c,
             rotation := natOfDigits d, filename := baseName s }
  | none => none

example :
    parseFilename ("2025-12-27[15:20]_1234.56,789.01,2.34_45deg.png".toList) =
      some { x := ratOfNum ("1234.56".toList), y := ratOfNum ("789.01".toList),
             z := ratOfNum ("2.34".toList), rotation := 45,
             filename := "2025-12-27[15:20]_1234.56,789.01,2.34_45deg.png".toList } := by
  rfl

example : parseFilename ("_1.0,2.0,3.0_720deg.png".toList) =
    some { x := ratOfNum ("1.0".toList), y := ratOfNum ("2.0".toList),
           z := ratOfNum ("3.0".toList), rotation := 720,
           filename := "_1.0,2.0,3.0_720deg.png".toList } := by rfl

example : parseFilename ("_-12.5,3.0,1.0_90deg.png".toList) = none := by decide

example : parseFilename ("_1.0,2.0_45deg.png".toList) = none := by decide

/-! ### Basic lemmas about the matching primitives -/

theorem splitOnFirst_eq_some {ch : Char} :
    ∀ {s u v : List Char}, splitOnFirst ch s = some (u, v) →
      s = u ++ ch :: v ∧ ch ∉ u := by
  intro s
  induction s with
  | nil => intro u v h; simp [splitOnFirst] at h
  | cons c cs ih =>
    intro u v h
    by_cases hc : c = ch
    · subst hc
      simp [splitOnFirst] at h
      obtain ⟨hu, hv⟩ := h
      subst hu; subst hv
      exact ⟨rfl, by simp⟩
    · simp only [splitOnFirst, if_neg hc] at h
      cases hsp : splitOnFirst ch cs with
      | none => rw [hsp] at h; simp at h
      | some p =>
        rw [hsp] at h
        obtain ⟨u1, v1⟩ := p
        simp at h
        obtain ⟨hu, hv⟩ := h
        obtain ⟨h1, h2⟩ := ih hsp
        subst hu; subst hv
        constructor
        · simp [h1]
        · simp only [List.mem_cons, not_or]
          exact ⟨fun hh => hc hh.symm, h2⟩

theorem splitOnFirst_append {ch : Char} :
    ∀ {u : List Char} (v : List Char), ch ∉ u →
      splitOnFirst ch (u ++ ch :: v) = some (u, v) := by
  intro u
  induction u with
  | nil => intro v _; simp [splitOnFirst]
  | cons c cs ih =>
    intro v hu
    have hc : ¬ c = ch := fun h => hu (by simp [h])
    have hcs : ch ∉ cs := fun h => hu (by simp [h])
    simp [splitOnFirst, hc, ih v hcs]

theorem takeWhile_append_run {p : Char → Bool} :
    ∀ {u : List Char} (v : List Char), (∀ x ∈ u, p x = true) →
      (v = [] ∨ ∃ c w, v = c :: w ∧ p c = false) →
      (u ++ v).takeWhile p = u ∧ (u ++ v).dropWhile p = v := by
  intro u
  induction u with
  | nil =>
    intro v _ hv
    rcases hv with h | ⟨c, w, rfl, hc⟩
    · subst h; simp
    · simp [List.takeWhile, List.dropWhile, hc]
  | cons x xs ih =>
    intro v hu hv
    have hx : p x = true := hu x (by simp)
    have := ih v (fun a ha => hu a (by simp [ha])) hv
    simp [List.takeWhile, List.dropWhile, hx, this.1, this.2]

theorem matchesNum_all_numChar {s : List Char} (h : matchesNum s = true) :
    ∀ x ∈ s, numChar x = true := by
  intro x hx
  have hs := List.takeWhile_append_dropWhile (p := Char.isDigit) (l := s)
  rw [← hs] at hx
  rcases List.mem_append.1 hx with h1 | h2
  · have := List.mem_takeWhile_imp h1
    simp [numChar, this]
  · simp only [matchesNum, List.span_eq_take_drop] at h
    cases hr : s.dropWhile Char.isDigit with
    | nil => rw [hr] at h2; simp at h2
    | cons c rest =>
      rw [hr] at h h2
      simp only [Bool.and_eq_true] at h
      obtain ⟨-, h⟩ := h
      simp only [Bool.and_eq_true, decide_eq_true_eq, List.all_eq_true] at h
      rcases List.mem_cons.1 h2 with rfl | hrest
      · simp [numChar, h.1]
      · simp [numChar, h.2 x hrest]

theorem matchesNum_ne_nil {s : List Char} (h : matchesNum s = true) : s ≠ [] := by
  intro hs; subst hs; simp [matchesNum, List.span_eq_take_drop] at h

theorem not_mem_of_matchesNum {s : List Char} (h : matchesNum s = true)
    {ch : Char} (hch : numChar ch = false) : ch ∉ s := by
  intro hmem
  have := matchesNum_all_numChar h ch hmem
  rw [hch] at this
  exact Bool.false_ne_true this

theorem getLast?_app_singleton (l : List Char) (x : Char) :
    (l ++ [x]).getLast? = some x := by
  rw [List.getLast?_append_of_ne_nil _ (by simp)]
  rfl

/-- If the same list splits as `X ++ u` and as `Y ++ v` where `u` and `v`
consist only of characters satisfying `p` and both `X` and `Y` end with a
character violating `p`, then the splits coincide. -/
theorem append_run_inj_aux {p : Char → Bool} {X Y u v : List Char}
    (h : X ++ u = Y ++ v) (hlen : u.length ≤ v.length)
    (hv : ∀ a ∈ v, p a = true)
    (hx : ∀ a, X.getLast? = some a → p a = false) :
    X = Y ∧ u = v := by
  set k := v.length - u.length with hk
  have hvsplit : v.take k ++ v.drop k = v := List.take_append_drop _ _
  have h2 : X ++ u = (Y ++ v.take k) ++ v.drop k := by
    rw [List.append_assoc, hvsplit, h]
  have hlen2 : u.length = (v.drop k).length := by
    simp only [List.length_drop]; omega
  obtain ⟨h4, h5⟩ := List.append_inj' h2 hlen2
  by_cases hk0 : k = 0
  · rw [hk0] at h4 h5
    simp only [List.take_zero, List.append_nil] at h4
    simp only [List.drop_zero] at h5
    exact ⟨h4, h5⟩
  · exfalso
    have htk : v.take k ≠ [] := by
      intro hnil
      have := congrArg List.length hnil
      simp only [List.length_take, List.length_nil] at this
      omega
    obtain ⟨a, ha⟩ : ∃ a, (v.take k).getLast? = some a :=
      ⟨_, List.getLast?_eq_getLast_of_ne_nil htk⟩
    have hmem : a ∈ v := by
      obtain ⟨hne, rfl⟩ := List.mem_getLast?_eq_getLast ha
      exact List.take_subset _ _ (List.getLast_mem hne)
    have htrue : p a = true := hv a hmem
    have hfalse : p a = false := by
      apply hx
      rw [h4, List.getLast?_append_of_ne_nil _ htk]
      exact ha
    simp [htrue] at hfalse

theorem append_run_inj {p : Char → Bool} {X Y u v : List Char}
    (h : X ++ u = Y ++ v)
    (hu : ∀ a ∈ u, p a = true) (hv : ∀ a ∈ v, p a = true)
    (hx : ∀ a, X.getLast? = some a → p a = false)
    (hy : ∀ a, Y.getLast? = some a → p a = false) :
    X = Y ∧ u = v := by
  rcases le_total u.length v.length with hle | hle
  · exact append_run_inj_aux h hle hv hx
  · obtain ⟨h1, h2⟩ := append_run_inj_aux h.symm hle hu hy
    exact ⟨h1.symm, h2.symm⟩

/-! ### The canonical position suffix and its unique decomposition -/

/-- The shape `_<a>,<b>,<c>_<d><e>` of a match of the position pattern
(`e` being the literal tail, normally `deg.png`). -/
def posSuffix (a b c d e : List Char) : List Char :=
  '_' :: (a ++ ',' :: (b ++ ',' :: (c ++ '_' :: (d ++ e))))

/-- The prefix `_<a>,<b>,<c>` of the position suffix. -/
def seg3 (a b c : List Char) : List Char :=
  '_' :: (a ++ ',' :: (b ++ ',' :: c))

/-- The prefix `_<a>,<b>` of the position suffix. -/
def seg2 (a b : List Char) : List Char :=
  '_' :: (a ++ ',' :: b)

theorem posSuffix_flat (a b c d e : List Char) :
    posSuffix a b c d e = ((seg3 a b c ++ ['_']) ++ d) ++ e := by
  simp [posSuffix, seg3, List.append_assoc]

theorem seg3_flat (a b c : List Char) :
    seg3 a b c = (seg2 a b ++ [',']) ++ c := by
  simp [seg3, seg2, List.append_assoc]

theorem seg2_flat (a b : List Char) :
    seg2 a b = ((['_'] ++ a) ++ [',']) ++ b := by
  simp [seg2, List.append_assoc]

theorem matchTail_complete (a b c d : List Char)
    (ha : matchesNum a = true) (hb : matchesNum b = true)
    (hc : matchesNum c = true)
    (hd : d ≠ []) (hd2 : ∀ x ∈ d, x.isDigit = true) :
    matchTail (posSuffix a b c d degPngChars) = some (a, b, c, d) := by
  have hac : ',' ∉ a := not_mem_of_matchesNum ha (by decide)
  have hbc : ',' ∉ b := not_mem_of_matchesNum hb (by decide)
  have hcu : '_' ∉ c := not_mem_of_matchesNum hc (by decide)
  have h1 : splitOnFirst ',' (a ++ ',' :: (b ++ ',' :: (c ++ '_' :: (d ++ degPngChars)))) =
      some (a, b ++ ',' :: (c ++ '_' :: (d ++ degPngChars))) :=
    splitOnFirst_append _ hac
  have h2 : splitOnFirst ',' (b ++ ',' :: (c ++ '_' :: (d ++ degPngChars))) =
      some (b, c ++ '_' :: (d ++ degPngChars)) :=
    splitOnFirst_append _ hbc
  have h3 : splitOnFirst '_' (c ++ '_' :: (d ++ degPngChars)) =
      some (c, d ++ degPngChars) :=
    splitOnFirst_append _ hcu
  have h4 := takeWhile_append_run (p := Char.isDigit) degPngChars hd2
    (Or.inr ⟨'d', ['e', 'g', '.', 'p', 'n', 'g'], rfl, by decide⟩)
  have hde : d.isEmpty = false := by
    cases d with
    | nil => exact absurd rfl hd
    | cons x xs => rfl
  simp only [posSuffix, matchTail, h1, h2, h3, h4.1, h4.2]
  rw [if_neg (by simp)]
  rw [if_pos]
  simp [ha, hb, hc, hde, ciEq]

theorem matchTail_sound {s a b c d : List Char}
    (h : matchTail s = some (a, b, c, d)) :
    ∃ e, s = posSuffix a b c d e ∧
      matchesNum a = true ∧ matchesNum b = true ∧ matchesNum c = true ∧
      d ≠ [] ∧ (∀ x ∈ d, x.isDigit = true) ∧ ciEq e degPngChars = true := by
  cases s with
  | nil => simp [matchTail] at h
  | cons c0 t =>
    by_cases hc0 : c0 = '_'
    · subst hc0
      cases hsp1 : splitOnFirst ',' t with
      | none => simp [matchTail, hsp1] at h
      | some p1 =>
        obtain ⟨a1, t1⟩ := p1
        cases hsp2 : splitOnFirst ',' t1 with
        | none => simp [matchTail, hsp1, hsp2] at h
        | some p2 =>
          obtain ⟨b1, t2⟩ := p2
          cases hsp3 : splitOnFirst '_' t2 with
          | none => simp [matchTail, hsp1, hsp2, hsp3] at h
          | some p3 =>
            obtain ⟨c1, t3⟩ := p3
            rw [show matchTail ('_' :: t) =
                (if matchesNum a1 && matchesNum b1 && matchesNum c1 &&
                    !(t3.takeWhile Char.isDigit).isEmpty &&
                    ciEq (t3.dropWhile Char.isDigit) degPngChars
                 then some (a1, b1, c1, t3.takeWhile Char.isDigit)
                 else none) from by
              simp [matchTail, hsp1, hsp2, hsp3]] at h
            by_cases hcond : (matchesNum a1 && matchesNum b1 && matchesNum c1 &&
                !(t3.takeWhile Char.isDigit).isEmpty &&
                ciEq (t3.dropWhile Char.isDigit) degPngChars) = true
            · rw [if_pos hcond] at h
              simp only [Option.some.injEq, Prod.mk.injEq] at h
              obtain ⟨rfl, rfl, rfl, rfl⟩ := h
              simp only [Bool.and_eq_true] at hcond
              obtain ⟨⟨⟨⟨ha, hb⟩, hc⟩, hne⟩, he⟩ := hcond
              obtain ⟨ht1, -⟩ := splitOnFirst_eq_some hsp1
              obtain ⟨ht2, -⟩ := splitOnFirst_eq_some hsp2
              obtain ⟨ht3, -⟩ := splitOnFirst_eq_some hsp3
              refine ⟨t3.dropWhile Char.isDigit, ?_, ha, hb, hc, ?_, ?_, he⟩
              · rw [posSuffix, ht1, ht2, ht3, List.takeWhile_append_dropWhile]
              · intro hnil
                rw [hnil] at hne
                simp at hne
              · intro x hx
                exact List.mem_takeWhile_imp hx
            · rw [if_neg (by simpa using hcond)] at h
              exact absurd h (by simp)
    · simp [matchTail, hc0] at h

theorem searchPos_sound :
    ∀ {s : List Char} {r}, searchPos s = some r →
      ∃ q s1, s = q ++ s1 ∧ matchTail s1 = some r := by
  intro s
  induction s with
  | nil => intro r h; simp [searchPos] at h
  | cons c cs ih =>
    intro r h
    cases hm : matchTail (c :: cs) with
    | some r2 =>
      rw [searchPos, hm] at h
      simp only [Option.some.injEq] at h
      subst h
      exact ⟨[], c :: cs, by simp, hm⟩
    | none =>
      rw [searchPos, hm] at h
      obtain ⟨q, s1, hq, hmt⟩ := ih h
      exact ⟨c :: q, s1, by simp [hq], hmt⟩

theorem searchPos_isSome :
    ∀ (q : List Char) {s1 : List Char} {r}, matchTail s1 = some r →
      ∃ r2, searchPos (q ++ s1) = some r2 := by
  intro q
  induction q with
  | nil =>
    intro s1 r h
    cases s1 with
    | nil => simp [matchTail] at h
    | cons c cs => exact ⟨r, by rw [List.nil_append, searchPos, h]⟩
  | cons x q1 ih =>
    intro s1 r h
    obtain ⟨r2, hr2⟩ := ih h
    cases hm : matchTail (x :: (q1 ++ s1)) with
    | some r3 => exact ⟨r3, by rw [List.cons_append, searchPos, hm]⟩
    | none => exact ⟨r2, by rw [List.cons_append, searchPos, hm, hr2]⟩

theorem length_of_ciEq {e : List Char} (h : ciEq e degPngChars = true) :
    e.length = degPngChars.length := by
  simp only [ciEq, decide_eq_true_eq] at h
  have := congrArg List.length h
  simpa using this

/-- Unique decomposition: a list that ends in a full position suffix admits no
other valid split as `prefix ++ posSuffix …`.  This is what makes the
end-anchored search deterministic in its captured fields. -/
theorem decomp_unique {P Q a b c d A B C D E : List Char}
    (h : P ++ posSuffix a b c d degPngChars = Q ++ posSuffix A B C D E)
    (ha : matchesNum a = true) (hb : matchesNum b = true)
    (hc : matchesNum c = true) (hd2 : ∀ x ∈ d, x.isDigit = true)
    (hA : matchesNum A = true) (hB : matchesNum B = true)
    (hC : matchesNum C = true) (hD2 : ∀ x ∈ D, x.isDigit = true)
    (hE : ciEq E degPngChars = true) :
    P = Q ∧ A = a ∧ B = b ∧ C = c ∧ D = d := by
  rw [posSuffix_flat, posSuffix_flat] at h
  simp only [← List.append_assoc] at h
  obtain ⟨h1, -⟩ := List.append_inj' h (length_of_ciEq hE).symm
  obtain ⟨h2, hdD⟩ := append_run_inj (p := Char.isDigit) h1 hd2 hD2
    (fun x hx => by
      rw [getLast?_app_singleton] at hx
      cases hx; decide)
    (fun x hx => by
      rw [getLast?_app_singleton] at hx
      cases hx; decide)
  obtain ⟨h3, -⟩ := List.append_inj' h2 rfl
  rw [seg3_flat, seg3_flat] at h3
  simp only [← List.append_assoc] at h3
  obtain ⟨h4, hcC⟩ := append_run_inj (p := numChar) h3
    (matchesNum_all_numChar hc) (matchesNum_all_numChar hC)
    (fun x hx => by
      rw [getLast?_app_singleton] at hx
      cases hx; decide)
    (fun x hx => by
      rw [getLast?_app_singleton] at hx
      cases hx; decide)
  obtain ⟨h5, -⟩ := List.append_inj' h4 rfl
  rw [seg2_flat, seg2_flat] at h5
  simp only [← List.append_assoc] at h5
  obtain ⟨h6, hbB⟩ := append_run_inj (p := numChar) h5
    (matchesNum_all_numChar hb) (matchesNum_all_numChar hB)
    (fun x hx => by
      rw [getLast?_app_singleton] at hx
      cases hx; decide)
    (fun x hx => by
      rw [getLast?_app_singleton] at hx
      cases hx; decide)
  obtain ⟨h7, -⟩ := List.append_inj' h6 rfl
  obtain ⟨h8, haA⟩ := append_run_inj (p := numChar) h7
    (matchesNum_all_numChar ha) (matchesNum_all_numChar hA)
    (fun x hx => by
      rw [getLast?_app_singleton] at hx
      cases hx; decide)
    (fun x hx => by
      rw [getLast?_app_singleton] at hx
      cases hx; decide)
  obtain ⟨h9, -⟩ := List.append_inj' h8 rfl
  exact ⟨h9, haA.symm, hbB.symm, hcC.symm, hdD.symm⟩

/-- Master lemma: when the basename ends in a well-formed position suffix,
`parse_filename` succeeds and recovers exactly the four written fields. -/
theorem parseFilename_of_posSuffix {f P a b c d : List Char}
    (hbase : baseName f = P ++ posSuffix a b c d degPngChars)
    (ha : matchesNum a = true) (hb : matchesNum b = true)
    (hc : matchesNum c = true)
    (hd : d ≠ []) (hd2 : ∀ x ∈ d, x.isDigit = true) :
    parseFilename f =
      some { x := ratOfNum a, y := ratOfNum b, z := ratOfNum c,
             rotation := natOfDigits d, filename := baseName f } := by
  have hmt := matchTail_complete a b c d ha hb hc hd hd2
  obtain ⟨r2, hr2⟩ := searchPos_isSome P hmt
  have hsearch : searchPos (baseName f) = some r2 := by rw [hbase]; exact hr2
  obtain ⟨q, s1, hqs, hmt2⟩ := searchPos_sound hsearch
  obtain ⟨A, B, C, D⟩ := r2
  obtain ⟨E, hs1, hA, hB, hC, hDne, hD2, hE⟩ := matchTail_sound hmt2
  have heq : P ++ posSuffix a b c d degPngChars = q ++ posSuffix A B C D E := by
    rw [← hbase, hqs, hs1]
  obtain ⟨-, hAa, hBb, hCc, hDd⟩ :=
    decomp_unique heq ha hb hc hd2 hA hB hC hD2 hE
  subst hAa; subst hBb; subst hCc; subst hDd
  simp [parseFilename, hsearch]

theorem ratOfNum_nonneg (s : List Char) : 0 ≤ ratOfNum s := by
  unfold ratOfNum
  obtain ⟨d1, r⟩ := s.span Char.isDigit
  cases r with
  | nil => exact Nat.cast_nonneg _
  | cons hd tl =>
    exact add_nonneg (Nat.cast_nonneg _)
      (div_nonneg (Nat.cast_nonneg _) (by positivity))

/-! ### Claims C4, C5, C7, C10 (filename decoder) -/

/-- Claim C5 (confirmed): for every filename whose basename ends with
`_<X>,<Y>,<Z>_<ROT>deg.png` with decimal `X`, `Y`, `Z` and unsigned integer
`ROT`, `parse_filename` succeeds and returns exactly the written fields
(`float` modelled as the exact decimal rational, `int` as the digit value). -/
theorem decode_recovers_fields (f P a b c d : List Char)
    (hbase : baseName f = P ++ posSuffix a b c d degPngChars)
    (ha : matchesNum a = true) (hb : matchesNum b = true)
    (hc : matchesNum c = true)
    (hd : d ≠ []) (hd2 : ∀ x ∈ d, x.isDigit = true) :
    parseFilename f =
      some { x := ratOfNum a, y := ratOfNum b, z := ratOfNum c,
             rotation := natOfDigits d, filename := baseName f } :=
  parseFilename_of_posSuffix hbase ha hb hc hd hd2

/-- Witness for C5 at the spec's own example filename. -/
theorem decode_recovers_fields_witness :
    parseFilename ("2025-12-27[15:20]_1234.56,789.01,2.34_45deg.png".toList) =
      some { x := ratOfNum ("1234.56".toList), y := ratOfNum ("789.01".toList),
             z := ratOfNum ("2.34".toList), rotation := 45,
             filename := "2025-12-27[15:20]_1234.56,789.01,2.34_45deg.png".toList } :=
  decode_recovers_fields _ ("2025-12-27[15:20]".toList) ("1234.56".toList)
    ("789.01".toList) ("2.34".toList) ("45".toList)
    (by decide) (by decide) (by decide) (by decide) (by decide) (by decide)

/-- Counterexample to claim C4 as stated: the filename
`_1.0,2.0,3.0_720deg.png` parses with `rotation = 720`, which is neither
reduced modulo 360 (`720 % 360 = 0`) nor within `0–359`. -/
theorem rotation_not_reduced_counterexample :
    parseFilename ("_1.0,2.0,3.0_720deg.png".toList) =
      some { x := ratOfNum ("1.0".toList), y := ratOfNum ("2.0".toList),
             z := ratOfNum ("3.0".toList), rotation := 720,
             filename := "_1.0,2.0,3.0_720deg.png".toList } ∧
    (720 : ℕ) % 360 = 0 ∧ ¬ (720 : ℕ) ≤ 359 :=
  ⟨by rfl, by decide, by decide⟩

/-- Claim C4 (amended): the parsed `rotation` field equals the integer
denoted by the written rotation digits exactly; no modulo-360 reduction is
applied, so values of 360 or more are returned as written. -/
theorem rotation_equals_written_value (f P a b c d : List Char)
    (hbase : baseName f = P ++ posSuffix a b c d degPngChars)
    (ha : matchesNum a = true) (hb : matchesNum b = true)
    (hc : matchesNum c = true)
    (hd : d ≠ []) (hd2 : ∀ x ∈ d, x.isDigit = true) :
    ∃ r, parseFilename f = some r ∧ r.rotation = natOfDigits d :=
  ⟨_, parseFilename_of_posSuffix hbase ha hb hc hd hd2, rfl⟩

/-- Witness for the amended C4 on the 720-degree example. -/
theorem rotation_equals_written_value_witness :
    ∃ r, parseFilename ("_1.0,2.0,3.0_720deg.png".toList) = some r ∧
      r.rotation = natOfDigits ("720".toList) :=
  rotation_equals_written_value _ [] ("1.0".toList) ("2.0".toList)
    ("3.0".toList) ("720".toList)
    (by decide) (by decide) (by decide) (by decide) (by decide) (by decide)

/-- Claim C7 (confirmed): `parse_filename` returns a value only on inputs
whose basename actually carries the full four-group `deg.png` suffix — on
every input missing a numeric group or the unit suffix it returns `None`
as a value (the model is a total function, so no exception escapes); two
such malformed inputs are evaluated explicitly. -/
theorem decode_none_on_malformed :
    (∀ f r, parseFilename f = some r →
      ∃ Q A B C D E, baseName f = Q ++ posSuffix A B C D E ∧
        matchesNum A = true ∧ matchesNum B = true ∧ matchesNum C = true ∧
        D ≠ [] ∧ (∀ x ∈ D, x.isDigit = true) ∧ ciEq E degPngChars = true) ∧
    parseFilename ("2025-12-27[15:20]_1234.56,789.01_45deg.png".toList) = none ∧
    parseFilename ("_1.0,2.0,3.0_45.png".toList) = none := by
  refine ⟨?_, by decide, by decide⟩
  intro f r h
  cases hs : searchPos (baseName f) with
  | none => simp [parseFilename, hs] at h
  | some r4 =>
    obtain ⟨A, B, C, D⟩ := r4
    obtain ⟨q, s1, hqs, hmt⟩ := searchPos_sound hs
    obtain ⟨E, hs1, hA, hB, hC, hDne, hD2, hE⟩ := matchTail_sound hmt
    exact ⟨q, A, B, C, D, E, by rw [hqs, hs1], hA, hB, hC, hDne, hD2, hE⟩

/-- Witness for C7 on a well-formed input. -/
theorem decode_none_on_malformed_witness :
    ∃ Q A B C D E,
      baseName ("_1.0,2.0,3.0_45deg.png".toList) = Q ++ posSuffix A B C D E ∧
        matchesNum A = true ∧ matchesNum B = true ∧ matchesNum C = true ∧
        D ≠ [] ∧ (∀ x ∈ D, x.isDigit = true) ∧ ciEq E degPngChars = true :=
  decode_none_on_malformed.1 ("_1.0,2.0,3.0_45deg.png".toList)
    { x := ratOfNum ("1.0".toList), y := ratOfNum ("2.0".toList),
      z := ratOfNum ("3.0".toList), rotation := 45,
      filename := "_1.0,2.0,3.0_45deg.png".toList }
    (by rfl)

/-- Claim C10 (confirmed): the position regex accepts only unsigned digit
sequences, so every decoded coordinate is nonnegative, and a filename with a
signed coordinate field returns `None`. -/
theorem decoded_coords_nonneg :
    (∀ f r, parseFilename f = some r → 0 ≤ r.x ∧ 0 ≤ r.y ∧ 0 ≤ r.z) ∧
    parseFilename ("_-12.5,3.0,1.0_90deg.png".toList) = none := by
  refine ⟨?_, by decide⟩
  intro f r h
  cases hs : searchPos (baseName f) with
  | none => simp [parseFilename, hs] at h
  | some r4 =>
    obtain ⟨A, B, C, D⟩ := r4
    simp only [parseFilename, hs, Option.some.injEq] at h
    subst h
    exact ⟨ratOfNum_nonneg A, ratOfNum_nonneg B, ratOfNum_nonneg C⟩

/-- Witness for C10's universally quantified part. -/
theorem decoded_coords_nonneg_witness :
    0 ≤ (ParsedPosition.mk (ratOfNum ("1.0".toList)) (ratOfNum ("2.0".toList))
          (ratOfNum ("3.0".toList)) 45 ("_1.0,2.0,3.0_45deg.png".toList)).x ∧
    0 ≤ (ParsedPosition.mk (ratOfNum ("1.0".toList)) (ratOfNum ("2.0".toList))
          (ratOfNum ("3.0".toList)) 45 ("_1.0,2.0,3.0_45deg.png".toList)).y ∧
    0 ≤ (ParsedPosition.mk (ratOfNum ("1.0".toList)) (ratOfNum ("2.0".toList))
          (ratOfNum ("3.0".toList)) 45 ("_1.0,2.0,3.0_45deg.png".toList)).z :=
  decoded_coords_nonneg.1 ("_1.0,2.0,3.0_45deg.png".toList) _ (by rfl)

/-! ## Coordinate projector (`map_renderer.py`, `_calculate_svg_coords`)

Faithful model of `MapRenderer._calculate_svg_coords`.  `bounds` is the
`map_config['bounds']` value, a list of coordinate pairs; Python's
`if not bounds or len(bounds) < 2` collapses to the length test (a missing
`bounds` behaves like the empty list).  The source also computes
`rot_x`/`rot_y` from `coordinateRotation` but never uses them in the returned
value (dead code), so they are omitted here.  `width`/`height` parameters are
likewise unused by the source. -/

/-- `MapRenderer._calculate_svg_coords`.  A list with fewer than two entries
takes the rough-estimation fallback branch; otherwise `bounds[0]`/`bounds[1]`
are used exactly as in the source. -/
def calcSvgCoords (gameX gameY : ℚ) (bounds : List (ℚ × ℚ)) : ℚ × ℚ :=
  match bounds with
  | b0 :: b1 :: _ =>
    let minX := if b0.1 > b1.1 then b1.1 else b0.1
    let maxX := if b0.1 > b1.1 then b0.1 else b1.1
    let minY := if b0.2 > b1.2 then b1.2 else b0.2
    let maxY := if b0.2 > b1.2 then b0.2 else b1.2
    let rangeX := if maxX ≠ minX then maxX - minX else 1000
    let rangeY := if maxY ≠ minY then maxY - minY else 1000
    ((gameX - minX) / rangeX * 100, (maxY - gameY) / rangeY * 100)
  | _ => (gameX + 500, 500 - gameY)

/-- Counterexample to claim C1 as stated: with bounds `(0,0)`–`(100,100)`,
projecting game point `(50, 25)` yields `(50, 75)` — the percentages
`100·u` and `100·v` — not the normalized `(0.5, 0.75)` the claim asserts. -/
theorem project_scaling_counterexample :
    calcSvgCoords 50 25 [(0, 0), (100, 100)] = (50, 75) ∧
    calcSvgCoords 50 25 [(0, 0), (100, 100)] ≠ ((1 : ℚ) / 2, (3 : ℚ) / 4) := by
  norm_num [calcSvgCoords]

/-- Claim C1 (amended): in bounds mode with non-degenerate bounds the
projection returns `100·u` and `100·v` where
`u = (gameX - minX)/(maxX - minX)` and `v = (maxY - gameY)/(maxY - minY)`;
in particular bounds `(0,0)`–`(100,100)` at `(50,25)` give `(50, 75)`. -/
theorem project_bounds_percentage (gameX gameY : ℚ) (b0 b1 : ℚ × ℚ)
    (hx : b0.1 ≠ b1.1) (hy : b0.2 ≠ b1.2) :
    calcSvgCoords gameX gameY [b0, b1] =
      ((gameX - min b0.1 b1.1) / (max b0.1 b1.1 - min b0.1 b1.1) * 100,
       (max b0.2 b1.2 - gameY) / (max b0.2 b1.2 - min b0.2 b1.2) * 100) := by
  obtain ⟨x0, y0⟩ := b0
  obtain ⟨x1, y1⟩ := b1
  simp only at hx hy
  have hminx : (if x0 > x1 then x1 else x0) = min x0 x1 := by
    split_ifs with h
    · exact (min_eq_right h.le).symm
    · exact (min_eq_left (not_lt.1 h)).symm
  have hmaxx : (if x0 > x1 then x0 else x1) = max x0 x1 := by
    split_ifs with h
    · exact (max_eq_left h.le).symm
    · exact (max_eq_right (not_lt.1 h)).symm
  have hminy : (if y0 > y1 then y1 else y0) = min y0 y1 := by
    split_ifs with h
    · exact (min_eq_right h.le).symm
    · exact (min_eq_left (not_lt.1 h)).symm
  have hmaxy : (if y0 > y1 then y0 else y1) = max y0 y1 := by
    split_ifs with h
    · exact (max_eq_left h.le).symm
    · exact (max_eq_right (not_lt.1 h)).symm
  have hrx : max x0 x1 ≠ min x0 x1 := by
    rcases le_total x0 x1 with h | h
    · rw [max_eq_right h, min_eq_left h]; exact fun he => hx he.symm
    · rw [max_eq_left h, min_eq_right h]; exact hx
  have hry : max y0 y1 ≠ min y0 y1 := by
    rcases le_total y0 y1 with h | h
    · rw [max_eq_right h, min_eq_left h]; exact fun he => hy he.symm
    · rw [max_eq_left h, min_eq_right h]; exact hy
  simp only [calcSvgCoords]
  simp only [hminx, hmaxx, hminy, hmaxy]
  rw [if_pos hrx, if_pos hry]

/-- Witness for the amended C1 at the spec's example calibration. -/
theorem project_bounds_percentage_witness :
    calcSvgCoords 50 25 [((0 : ℚ), (0 : ℚ)), ((100 : ℚ), (100 : ℚ))] =
      ((50 - min (0 : ℚ) 100) / (max (0 : ℚ) 100 - min (0 : ℚ) 100) * 100,
       (max (0 : ℚ) 100 - 25) / (max (0 : ℚ) 100 - min (0 : ℚ) 100) * 100) :=
  project_bounds_percentage 50 25 (0, 0) (100, 100)
    (by norm_num) (by norm_num)

/-- Claim C9 (confirmed): with zero-extent bounds on an axis the divisor is
the fixed nominal range 1000 (never the zero extent), so the projection is a
total finite rational — no division by zero occurs. -/
theorem project_degenerate_bounds (gameX gameY : ℚ) (b0 b1 : ℚ × ℚ) :
    ((b0.1 = b1.1 →
        (calcSvgCoords gameX gameY [b0, b1]).1 = (gameX - b0.1) / 1000 * 100) ∧
     (b0.2 = b1.2 →
        (calcSvgCoords gameX gameY [b0, b1]).2 = (b0.2 - gameY) / 1000 * 100)) ∧
    (1000 : ℚ) ≠ 0 := by
  refine ⟨⟨?_, ?_⟩, by norm_num⟩
  · intro hxx
    obtain ⟨x0, y0⟩ := b0
    obtain ⟨x1, y1⟩ := b1
    simp only at hxx
    subst hxx
    simp only [calcSvgCoords]
    simp [lt_irrefl]
  · intro hyy
    obtain ⟨x0, y0⟩ := b0
    obtain ⟨x1, y1⟩ := b1
    simp only at hyy
    subst hyy
    simp only [calcSvgCoords]
    simp [lt_irrefl]

/-- Witness for C9 with bounds of zero x-extent. -/
theorem project_degenerate_bounds_witness :
    (calcSvgCoords 7 3 [((5 : ℚ), (0 : ℚ)), ((5 : ℚ), (100 : ℚ))]).1 =
      ((7 : ℚ) - 5) / 1000 * 100 :=
  (project_degenerate_bounds 7 3 (5, 0) (5, 100)).1.1 rfl

/-! ## Latest-file locator (`ScreenshotParser.get_latest_screenshot`)

The source runs `max(screenshots, key=os.path.getmtime)` over the `glob.glob`
listing (whose order the OS determines).  Python's `max` keeps the current
candidate unless a later element's key is strictly greater, hence returns the
first maximal element in listing order.  `files` models the listing as
`(path, mtime)` pairs. -/

/-- `ScreenshotParser.get_latest_screenshot` over a directory listing. -/
def getLatestScreenshot (files : List (List Char × ℚ)) : Option (List Char) :=
  match files with
  | [] => none
  | f :: rest =>
    some (rest.foldl (fun best y => if best.2 < y.2 then y else best) f).1

theorem foldl_max_keep {best : List Char × ℚ} :
    ∀ {l : List (List Char × ℚ)}, (∀ x ∈ l, x.2 ≤ best.2) →
      l.foldl (fun b y => if b.2 < y.2 then y else b) best = best := by
  intro l
  induction l with
  | nil => intro _; rfl
  | cons x xs ih =>
    intro h
    rw [List.foldl_cons, if_neg (not_lt.2 (h x (List.mem_cons_self x xs)))]
    exact ih fun y hy => h y (List.mem_cons_of_mem _ hy)

theorem foldl_max_unique {p : List Char} {m : ℚ} :
    ∀ {l : List (List Char × ℚ)} {best : List Char × ℚ},
      (p, m) ∈ l → (∀ x ∈ l, x ≠ (p, m) → x.2 < m) → best.2 < m →
      l.foldl (fun b y => if b.2 < y.2 then y else b) best = (p, m) := by
  intro l
  induction l with
  | nil => intro best h _ _; simp at h
  | cons x xs ih =>
    intro best hmem hlt hbest
    by_cases hx : x = (p, m)
    · subst hx
      rw [List.foldl_cons, if_pos hbest]
      apply foldl_max_keep
      intro y hy
      by_cases hyp : y = (p, m)
      · rw [hyp]
      · exact (hlt y (List.mem_cons_of_mem _ hy) hyp).le
    · have hx2 : x.2 < m := hlt x (List.mem_cons_self x xs) hx
      have hmem2 : (p, m) ∈ xs := by
        rcases List.mem_cons.1 hmem with h | h
        · exact absurd h.symm hx
        · exact h
      rw [List.foldl_cons]
      apply ih hmem2 (fun y hy hyp => hlt y (List.mem_cons_of_mem _ hy) hyp)
      split_ifs
      · exact hx2
      · exact hbest

/-- Counterexample to claim C6 as stated: two listings of the same entry set
`{(a.png, 5), (b.png, 5)}` (equal mtimes) yield different results depending
on listing order — the tie-break follows listing order, not a deterministic
lexicographic path order. -/
theorem latest_tie_order_dependent_counterexample :
    getLatestScreenshot [("a.png".toList, 5), ("b.png".toList, 5)] =
      some ("a.png".toList) ∧
    getLatestScreenshot [("b.png".toList, 5), ("a.png".toList, 5)] =
      some ("b.png".toList) ∧
    ("a.png".toList) ≠ ("b.png".toList) ∧
    List.Perm [("a.png".toList, (5 : ℚ)), ("b.png".toList, 5)]
      [("b.png".toList, (5 : ℚ)), ("a.png".toList, 5)] := by
  refine ⟨?_, ?_, by decide, List.Perm.swap _ _ _⟩
  · norm_num [getLatestScreenshot]
  · norm_num [getLatestScreenshot]

/-- Claim C6 (amended): `get_latest_screenshot` returns an entry of greatest
mtime — when the maximum is unique this is the unique newest file regardless
of listing order; when several entries tie for the greatest mtime the first
one in directory-listing order is returned, so the tie-break depends on the
listing order rather than on lexicographic path order. -/
theorem latest_screenshot_behavior :
    (∀ (files : List (List Char × ℚ)) (p : List Char) (m : ℚ),
        (p, m) ∈ files →
        (∀ q n, (q, n) ∈ files → (q, n) ≠ (p, m) → n < m) →
        getLatestScreenshot files = some p) ∧
    (∀ (p : List Char) (m : ℚ) (rest : List (List Char × ℚ)),
        (∀ q n, (q, n) ∈ rest → n ≤ m) →
        getLatestScreenshot ((p, m) :: rest) = some p) := by
  constructor
  · intro files p m hmem hlt
    cases files with
    | nil => simp at hmem
    | cons x xs =>
      simp only [getLatestScreenshot]
      by_cases hx : x = (p, m)
      · subst hx
        rw [foldl_max_keep]
        intro y hy
        obtain ⟨q, n⟩ := y
        by_cases hyp : (q, n) = (p, m)
        · rw [hyp]
        · exact (hlt q n (List.mem_cons_of_mem _ hy) hyp).le
      · have hmem2 : (p, m) ∈ xs := by
          rcases List.mem_cons.1 hmem with h | h
          · exact absurd h.symm hx
          · exact h
        rw [foldl_max_unique hmem2
          (fun y hy hyp => hlt y.1 y.2 (by simpa using List.mem_cons_of_mem x hy)
            (by simpa using hyp))
          (hlt x.1 x.2 (by simp) (by simpa using hx))]
  · intro p m rest h
    simp only [getLatestScreenshot]
    rw [foldl_max_keep]
    intro y hy
    exact h y.1 y.2 (by simpa using hy)

/-- Witness for the amended C6 on a listing with distinct mtimes. -/
theorem latest_screenshot_behavior_witness :
    getLatestScreenshot
      [("a.png".toList, (1 : ℚ)), ("b.png".toList, 3), ("c.png".toList, 2)] =
      some ("b.png".toList) :=
  latest_screenshot_behavior.1 _ ("b.png".toList) 3 (by simp)
    (by
      intro q n hqn hne
      simp only [List.mem_cons, List.not_mem_nil, or_false,
        Prod.mk.injEq] at hqn
      rcases hqn with ⟨rfl, rfl⟩ | ⟨rfl, rfl⟩ | ⟨rfl, rfl⟩
      · norm_num
      · exact absurd rfl hne
      · norm_num)

/-! ## Log event tailer (`log_monitor.py`)

`TarkovLogMonitor._process_line` strips the line, then runs every compiled
pattern of `PATTERNS` (dict insertion order) with `re.search`; each match
dispatches to every callback registered for that event kind, and a
`map_loaded` match with a truthy captured group additionally lowers it into
`current_map`.  The eight patterns are modelled as dedicated leftmost-scan
matchers; `\w`/`\s` are modelled as ASCII word/whitespace classes, and the
patterns' character classes are disjoint from their literal separators, so
greedy matching without backtracking is faithful.  Listeners are modelled by
a per-kind count; each dispatch attempt is recorded (a raising callback is
caught by the source and does not affect later dispatches, so the record is
the same). -/

inductive EventType where
  | map_loading
  | map_loaded
  | quest_completed
  | quest_started
  | raid_started
  | raid_ended
  | player_died
  | extract_started
deriving DecidableEq, Repr

/-- ASCII model of the regex class `\w`. -/
def isWordCh (c : Char) : Bool := c.isAlphanum || c = '_'

/-- ASCII model of the regex class `\s`. -/
def isSpaceCh (c : Char) : Bool := c = ' ' || c = '\t' || c = '\n' || c = '\r'

/-- Consume a literal case-insensitively (models `re.IGNORECASE`). -/
def litCi : List Char → List Char → Option (List Char)
  | [], s => some s
  | _ :: _, [] => none
  | c :: cs, x :: xs => if x.toLower = c.toLower then litCi cs xs else none

/-- Consume `\s+` (at least one whitespace, then greedily all). -/
def ws1 : List Char → Option (List Char)
  | [] => none
  | x :: xs => if isSpaceCh x then some (xs.dropWhile isSpaceCh) else none

/-- Consume and capture `(\w+)` greedily. -/
def word1 (s : List Char) : Option (List Char × List Char) :=
  match s.takeWhile isWordCh with
  | [] => none
  | w => some (w, s.drop w.length)

/-- Consume an optional `:?`. -/
def optColon : List Char → List Char
  | ':' :: xs => xs
  | s => s

/-- `Loading\s+map:\s*(\w+)` at the current position. -/
def mapLoadingAt (s : List Char) : Option (Option (List Char)) :=
  match litCi ("loading".toList) s with
  | none => none
  | some s1 =>
    match ws1 s1 with
    | none => none
    | some s2 =>
      match litCi ("map:".toList) s2 with
      | none => none
      | some s3 =>
        match word1 (s3.dropWhile isSpaceCh) with
        | none => none
        | some (w, _) => some (some w)

/-- `Map\s+(\w+)\s+loaded` at the current position. -/
def mapLoadedAt (s : List Char) : Option (Option (List Char)) :=
  match litCi ("map".toList) s with
  | none => none
  | some s1 =>
    match ws1 s1 with
    | none => none
    | some s2 =>
      match word1 s2 with
      | none => none
      | some (w, s3) =>
        match ws1 s3 with
        | none => none
        | some s4 =>
          match litCi ("loaded".toList) s4 with
          | none => none
          | some _ => some (some w)

/-- `Quest\s+completed:?\s*(\w+)` at the current position. -/
def questCompletedAt (s : List Char) : Option (Option (List Char)) :=
  match litCi ("quest".toList) s with
  | none => none
  | some s1 =>
    match ws1 s1 with
    | none => none
    | some s2 =>
      match litCi ("completed".toList) s2 with
      | none => none
      | some s3 =>
        match word1 ((optColon s3).dropWhile isSpaceCh) with
        | none => none
        | some (w, _) => some (some w)

/-- `Quest\s+started:?\s*(\w+)` at the current position. -/
def questStartedAt (s : List Char) : Option (Option (List Char)) :=
  match litCi ("quest".toList) s with
  | none => none
  | some s1 =>
    match ws1 s1 with
    | none => none
    | some s2 =>
      match litCi ("started".toList) s2 with
      | none => none
      | some s3 =>
        match word1 ((optColon s3).dropWhile isSpaceCh) with
        | none => none
        | some (w, _) => some (some w)

/-- `Started\s+raid` at the current position (no capture group). -/
def raidStartedAt (s : List Char) : Option (Option (List Char)) :=
  match litCi ("started".toList) s with
  | none => none
  | some s1 =>
    match ws1 s1 with
    | none => none
    | some s2 =>
      match litCi ("raid".toList) s2 with
      | none => none
      | some _ => some none

/-- `Raid\s+ended` at the current position (no capture group). -/
def raidEndedAt (s : List Char) : Option (Option (List Char)) :=
  match litCi ("raid".toList) s with
  | none => none
  | some s1 =>
    match ws1 s1 with
    | none => none
    | some s2 =>
      match litCi ("ended".toList) s2 with
      | none => none
      | some _ => some none

/-- `Player\s+died` at the current position (no capture group). -/
def playerDiedAt (s : List Char) : Option (Option (List Char)) :=
  match litCi ("player".toList) s with
  | none => none
  | some s1 =>
    match ws1 s1 with
    | none => none
    | some s2 =>
      match litCi ("died".toList) s2 with
      | none => none
      | some _ => some none

/-- `Extract\s+started` at the current position (no capture group). -/
def extractStartedAt (s : List Char) : Option (Option (List Char)) :=
  match litCi ("extract".toList) s with
  | none => none
  | some s1 =>
    match ws1 s1 with
    | none => none
    | some s2 =>
      match litCi ("started".toList) s2 with
      | none => none
      | some _ => some none

/-- Leftmost search: try the position matcher at every start. -/
def scanFor (f : List Char → Option (Option (List Char))) :
    List Char → Option (Option (List Char))
  | [] => f []
  | c :: cs =>
    match f (c :: cs) with
    | some r => some r
    | none => scanFor f cs

/-- The `PATTERNS` dict in insertion order. -/
def patternTable :
    List (EventType × (List Char → Option (Option (List Char)))) :=
  [(EventType.map_loading, scanFor mapLoadingAt),
   (EventType.map_loaded, scanFor mapLoadedAt),
   (EventType.quest_completed, scanFor questCompletedAt),
   (EventType.quest_started, scanFor questStartedAt),
   (EventType.raid_started, scanFor raidStartedAt),
   (EventType.raid_ended, scanFor raidEndedAt),
   (EventType.player_died, scanFor playerDiedAt),
   (EventType.extract_started, scanFor extractStartedAt)]

/-- Python `str.strip()` on whitespace. -/
def pyStrip (s : List Char) : List Char :=
  ((s.dropWhile isSpaceCh).reverse.dropWhile isSpaceCh).reverse

/-- `TarkovLogMonitor._process_line`: returns the updated `current_map` and
the list of dispatch attempts, one entry per registered callback of each
matching pattern, in pattern order. -/
def processLine (counts : EventType → ℕ) (curMap : Option (List Char))
    (line : List Char) :
    Option (List Char) × List (EventType × Option (List Char)) :=
  let l := pyStrip line
  if l.isEmpty then (curMap, [])
  else
    patternTable.foldl
      (fun acc ep =>
        match ep.2 l with
        | some data =>
          let newMap :=
            if ep.1 = EventType.map_loaded then
              match data with
              | some w => if w.isEmpty then acc.1 else some (w.map Char.toLower)
              | none => acc.1
            else acc.1
          (newMap, acc.2 ++ List.replicate (counts ep.1) (ep.1, data))
        | none => acc)
      (curMap, [])

/-- Claim C8 (confirmed): processing the line `Map customs loaded` updates
the tailer's current-map state to `customs` (read back by
`get_current_map`), and dispatches exactly one `map_loaded` event carrying
`customs` to each registered `map_loaded` listener — and nothing to
listeners of any other kind. -/
theorem map_loaded_line_updates_and_dispatches
    (counts : EventType → ℕ) (curMap : Option (List Char)) :
    processLine counts curMap ("Map customs loaded".toList) =
      (some ("customs".toList),
       List.replicate (counts EventType.map_loaded)
         (EventType.map_loaded, some ("customs".toList))) := rfl

/-! ## The tailing loop (`_tail_file` / `start_monitoring`)

`_tail_file` wraps its whole `while True` read loop in one `try/except`: a
line read is processed, an empty read sleeps, and ANY exception (file deleted
mid-read, permissions, …) is caught by the outer `except`, printed, and the
function returns — the loop ends and nothing re-resolves the file.
`start_monitoring` resolves the newest log once, raises `FileNotFoundError`
when none resolves, and otherwise calls `_tail_file`; when `_tail_file`
returns it simply returns too.  The loop is modelled over a finite prefix of
read outcomes; the `Bool` in the result records whether the loop was ended by
a read failure.  Cursor bookkeeping (`last_position` / `seek`) does not
affect these claims and is omitted. -/

/-- One outcome of `f.readline()` inside the tail loop. -/
inductive ReadEvent where
  | line (s : List Char)
  | noData
  | readFail
deriving DecidableEq, Repr

/-- The tailer's derived state: `current_map` plus the record of dispatch
attempts made so far. -/
structure TailState where
  currentMap : Option (List Char)
  dispatched : List (EventType × Option (List Char))
deriving DecidableEq, Repr

/-- `TarkovLogMonitor._tail_file` over a finite prefix of read outcomes.
Returns the final state and whether the loop was terminated by a read
failure (the caught exception makes the function return, dropping all
remaining events). -/
def tailFile (counts : EventType → ℕ) :
    TailState → List ReadEvent → TailState × Bool
  | st, [] => (st, false)
  | st, ReadEvent.line s :: rest =>
    let r := processLine counts st.currentMap s
    tailFile counts ⟨r.1, st.dispatched ++ r.2⟩ rest
  | st, ReadEvent.noData :: rest => tailFile counts st rest
  | st, ReadEvent.readFail :: _ => (st, true)

/-- `TarkovLogMonitor.start_monitoring`: `resolvedLog` is the outcome of
`_get_log_file()`; `none` raises `FileNotFoundError` (modelled as
`Except.error`), otherwise `_tail_file` runs once and its result is
returned — there is no re-resolution step after it. -/
def startMonitoring (counts : EventType → ℕ) (resolvedLog : Option (List Char))
    (events : List ReadEvent) : Except Unit (TailState × Bool) :=
  match resolvedLog with
  | none => Except.error ()
  | some _ => Except.ok (tailFile counts ⟨none, []⟩ events)

/-- Counterexample to claim C2 as stated: a mid-stream read failure
terminates the tailing loop (flag `true`); the `Map customs loaded` line
arriving after the failure is never processed — no dispatch, no current-map
update, and `start_monitoring` returns instead of re-resolving. -/
theorem tail_read_failure_terminates_counterexample :
    tailFile (fun _ => 1) ⟨none, []⟩
      [ReadEvent.readFail, ReadEvent.line ("Map customs loaded".toList)] =
      (⟨none, []⟩, true) ∧
    startMonitoring (fun _ => 1) (some ("app.log".toList))
      [ReadEvent.readFail, ReadEvent.line ("Map customs loaded".toList)] =
      Except.ok (⟨none, []⟩, true) :=
  ⟨rfl, rfl⟩

/-- Claim C2 (amended): a read failure on the monitored file ends the
tailing loop immediately — every event after the failure is discarded and no
file re-resolution takes place; resolution happens only in
`start_monitoring`, which fails fast (raises `FileNotFoundError`) when no
log file resolves at all. -/
theorem tail_read_failure_behavior :
    (∀ (counts : EventType → ℕ) (st : TailState) (pre post : List ReadEvent),
        ReadEvent.readFail ∉ pre →
        tailFile counts st (pre ++ ReadEvent.readFail :: post) =
          ((tailFile counts st pre).1, true)) ∧
    (∀ (counts : EventType → ℕ) (events : List ReadEvent),
        startMonitoring counts none events = Except.error ()) := by
  constructor
  · intro counts st pre post hpre
    induction pre generalizing st with
    | nil => rfl
    | cons e pre1 ih =>
      have he : e ≠ ReadEvent.readFail := fun h => hpre (by simp [h])
      have hpre1 : ReadEvent.readFail ∉ pre1 := fun h => hpre (by simp [h])
      cases e with
      | line s =>
        simp only [List.cons_append, tailFile]
        exact ih _ hpre1
      | noData =>
        simp only [List.cons_append, tailFile]
        exact ih _ hpre1
      | readFail => exact absurd rfl he
  · intro counts events
    rfl

/-- Witness for the amended C2: one successfully processed `Raid ended`
line, then a failure, then a line that is provably never processed. -/
theorem tail_read_failure_behavior_witness :
    tailFile (fun _ => 1) ⟨none, []⟩
      ([ReadEvent.line ("Raid ended".toList)] ++ ReadEvent.readFail ::
        [ReadEvent.line ("Map customs loaded".toList)]) =
      ((tailFile (fun _ => 1) ⟨none, []⟩
          [ReadEvent.line ("Raid ended".toList)]).1, true) :=
  tail_read_failure_behavior.1 (fun _ => 1) ⟨none, []⟩
    [ReadEvent.line ("Raid ended".toList)]
    [ReadEvent.line ("Map customs loaded".toList)] (by decide)

/-! ## Metadata cache (`tarkov_api.py`)

`TarkovAPI._cache` maps a string key to `(timestamp, value)`; `_get_cached`
returns the value iff `time.time() - timestamp < cache_ttl`.  `get_maps`
checks `if cached:` — Python truthiness, so an *empty* cached list counts as
a miss — then runs `_query` (which catches every exception and returns
`None`), caches and returns `data['maps']` on success, and returns `[]`
otherwise.  Map objects are modelled as opaque `ℕ` identifiers; the two
`time.time()` calls of a single `get_maps` invocation are modelled by one
`now`.  `fetchResult` is the outcome of `_query` projected to the `'maps'`
field: `some v` iff the response was truthy and contained `'maps'`. -/

/-- Dict lookup in the cache association list. -/
def cacheLookup : List (List Char × ℚ × List ℕ) → List Char →
    Option (ℚ × List ℕ)
  | [], _ => none
  | (k1, v) :: rest, k => if k1 = k then some v else cacheLookup rest k

/-- Dict assignment in the cache association list. -/
def cacheSet : List (List Char × ℚ × List ℕ) → List Char → ℚ × List ℕ →
    List (List Char × ℚ × List ℕ)
  | [], k, v => [(k, v)]
  | (k1, v1) :: rest, k, v =>
    if k1 = k then (k, v) :: rest else (k1, v1) :: cacheSet rest k v

/-- `TarkovAPI` instance state: `cache_ttl` and `_cache`. -/
structure ApiState where
  cacheTtl : ℚ
  cache : List (List Char × ℚ × List ℕ)
deriving DecidableEq, Repr

/-- `TarkovAPI._get_cached`. -/
def getCachedFn (st : ApiState) (now : ℚ) (key : List Char) :
    Option (List ℕ) :=
  match cacheLookup st.cache key with
  | some (ts, v) => if now - ts < st.cacheTtl then some v else none
  | none => none

/-- `TarkovAPI._set_cache`. -/
def setCacheFn (st : ApiState) (now : ℚ) (key : List Char) (v : List ℕ) :
    ApiState :=
  { st with cache := cacheSet st.cache key (now, v) }

/-- `TarkovAPI.get_maps`: the `Bool` records whether a remote call was made. -/
def getMaps (st : ApiState) (now : ℚ) (fetchResult : Option (List ℕ)) :
    List ℕ × ApiState × Bool :=
  let hit :=
    match getCachedFn st now ("maps".toList) with
    | some v => if v.isEmpty then none else some v
    | none => none
  match hit with
  | some v => (v, st, false)
  | none =>
    match fetchResult with
    | some maps => (maps, setCacheFn st now ("maps".toList) maps, true)
    | none => ([], st, true)

/-- Counterexample to claim C3 as stated: (i) with entry `([1,2]` fetched at
`t=0)`, `ttl=300`, a `get` at `now=400` whose re-fetch fails returns `[]` —
the previous stale value is discarded, exactly the "empty result" the claim
rules out; (ii) a fresh entry (`t=10`, `now=20`) holding the empty value is
treated as a miss and triggers a remote call despite being younger than ttl. -/
theorem cache_stale_lost_counterexample :
    getMaps ⟨300, [("maps".toList, (0 : ℚ), [1, 2])]⟩ 400 none =
      ([], ⟨300, [("maps".toList, (0 : ℚ), [1, 2])]⟩, true) ∧
    ([] : List ℕ) ≠ [1, 2] ∧
    (getMaps ⟨300, [("maps".toList, (10 : ℚ), [])]⟩ 20 none).2.2 = true ∧
    (20 : ℚ) - 10 < 300 := by
  refine ⟨?_, by decide, ?_, by norm_num⟩
  · norm_num [getMaps, getCachedFn, cacheLookup]
  · norm_num [getMaps, getCachedFn, cacheLookup]

/-- Claim C3 (amended): a `get_maps` whose entry is younger than
`cache_ttl` *and non-empty* returns the cached value with no remote call; an
empty, expired or missing entry triggers a synchronous re-fetch, which on
success overwrites the entry and returns the fetched value, and on failure
returns the empty list leaving the cache unchanged — the stored stale value
is not returned, and remote exceptions never propagate (`_query` catches
them, modelled by a `none` fetch outcome). -/
theorem cache_get_maps_behavior :
    (∀ (st : ApiState) (now ts : ℚ) (v : List ℕ) (fr : Option (List ℕ)),
        cacheLookup st.cache ("maps".toList) = some (ts, v) →
        now - ts < st.cacheTtl → v ≠ [] →
        getMaps st now fr = (v, st, false)) ∧
    (∀ (st : ApiState) (now : ℚ) (v : List ℕ),
        (∀ w, getCachedFn st now ("maps".toList) = some w → w = []) →
        getMaps st now (some v) =
          (v, setCacheFn st now ("maps".toList) v, true)) ∧
    (∀ (st : ApiState) (now : ℚ),
        (∀ w, getCachedFn st now ("maps".toList) = some w → w = []) →
        getMaps st now none = ([], st, true)) := by
  refine ⟨?_, ?_, ?_⟩
  · intro st now ts v fr hlook hfresh hne
    have hcv : getCachedFn st now ("maps".toList) = some v := by
      simp only [getCachedFn, hlook, if_pos hfresh]
    have hvne : v.isEmpty = false := by
      cases v with
      | nil => exact absurd rfl hne
      | cons x xs => rfl
    simp only [getMaps, hcv, hvne]
    simp
  · intro st now v hmiss
    cases hcv : getCachedFn st now ("maps".toList) with
    | none => simp only [getMaps, hcv]
    | some w =>
      have hw : w = [] := hmiss w hcv
      subst hw
      simp only [getMaps, hcv, List.isEmpty_nil, if_true]
  · intro st now hmiss
    cases hcv : getCachedFn st now ("maps".toList) with
    | none => simp only [getMaps, hcv]
    | some w =>
      have hw : w = [] := hmiss w hcv
      subst hw
      simp only [getMaps, hcv, List.isEmpty_nil, if_true]

/-- Witness for the amended C3: a fresh hit, an expired re-fetch success
that overwrites, and an expired failing re-fetch. -/
theorem cache_get_maps_behavior_witness :
    getMaps ⟨300, [("maps".toList, (0 : ℚ), [1, 2])]⟩ 100 none =
      ([1, 2], ⟨300, [("maps".toList, (0 : ℚ), [1, 2])]⟩, false) ∧
    getMaps ⟨300, [("maps".toList, (0 : ℚ), [1, 2])]⟩ 400 (some [3]) =
      ([3], setCacheFn ⟨300, [("maps".toList, (0 : ℚ), [1, 2])]⟩ 400
              ("maps".toList) [3], true) ∧
    getMaps ⟨300, [("maps".toList, (0 : ℚ), [1, 2])]⟩ 400 none =
      ([], ⟨300, [("maps".toList, (0 : ℚ), [1, 2])]⟩, true) := by
  have hexp : getCachedFn ⟨300, [("maps".toList, (0 : ℚ), [1, 2])]⟩ 400
      ("maps".toList) = none := by
    norm_num [getCachedFn, cacheLookup]
  refine ⟨?_, ?_, ?_⟩
  · exact cache_get_maps_behavior.1 _ 100 0 [1, 2] none rfl (by norm_num)
      (by decide)
  · exact cache_get_maps_behavior.2.1 _ 400 [3]
      (fun w hw => by rw [hexp] at hw; cases hw)
  · exact cache_get_maps_behavior.2.2 _ 400
      (fun w hw => by rw [hexp] at hw; cases hw)

end TarkovTracker
